import Mathlib

/-!
Verification development for the Sophon node repository.

This file gives a shallow embedding, in Lean 4, of the consensus and
state-transition functions of the repository, translated from the Rust
sources, and proves (or refutes) the specification claims about them.

Conventions of the embedding:
* Rust `u128` values are modelled as `Nat`; where overflow matters the
  reduction modulo `2 ^ 128` is written explicitly (Rust release-mode
  addition wraps).
* `HashMap` / `IndexMap` / `LinkedHashMap` values are modelled as
  association lists (`List (key × value)`) with unique keys, preserving
  insertion order; `HashSet` accumulators are modelled as `Finset`.
* Fallible Rust functions returning `Result` are modelled with `Except`.
  Acquiring a poisoned `RwLock` is the only failure of the DAG write
  helpers and cannot occur in this sequential model, so those paths are
  total here.
* Cryptographic material (signatures, keys, DKG messages) is kept
  abstract: the functions under verification never inspect it.
-/

set_option autoImplicit false

namespace Vrrb

/-! ## Association-list helpers (model of the map collaborators) -/

/-- Lookup of the value stored under a key, first match wins. -/
def lookupKey {β : Type _} : List (String × β) → String → Option β
  | [], _ => none
  | e :: rest, k => if e.1 = k then some e.2 else lookupKey rest k

/-- Key membership, as `HashMap::contains_key`. -/
def containsKey {β : Type _} (m : List (String × β)) (k : String) : Bool :=
  (lookupKey m k).isSome

/-- The `entry(k).and_modify(f).or_insert(d)` pattern shared by the maps in
the sources: modify the entry in place when the key is occupied, append a
fresh entry otherwise. -/
def upsertWith {β : Type _} (m : List (String × β)) (k : String) (f : β → β) (d : β) :
    List (String × β) :=
  if containsKey m k then
    m.map (fun e => if e.1 = k then (e.1, f e.2) else e)
  else
    m ++ [(k, d)]

/-- Removal of an entry by key. (`IndexMap::remove` is a swap-remove; the
claims observe the map only through key lookups, for which the layout of
the surviving entries is irrelevant, so an order-preserving erase is
used.) -/
def eraseKey {β : Type _} (m : List (String × β)) (k : String) : List (String × β) :=
  m.filter (fun e => decide (e.1 ≠ k))

/-! ## State store (`src/state/src/state.rs`)

The `NetworkState` of the standalone state crate.  The Rust struct keeps
the ledger serialized (`ledger: Vec<u8>`) and deserializes it in every
getter; serde (an external collaborator) is elided and the ledger is held
directly.  The file-path, roots and reward fields are not read by any of
the operations modelled here and are omitted. -/

/-- Modelled from the spec: the `Claim` of the `claim` crate (not under
`src/`). Per §3 a claim "exposes `get_pointer(block_seed)` returning an
optional integer used for leader election" and carries an `eligible` flag
(`slash_claims` in `state.rs` sets `eligible = false`).  The pointer
computation is external, so it is carried as abstract data. -/
structure Claim where
  hash : String
  eligible : Bool
  pointer : Nat → Option Nat

/-- Modelled from the spec: the `Ledger` of the `ledger` crate (not under
`src/`): credit, debit and claim maps keyed by address / public key, as
read back by `get_credits` / `get_debits` / `get_claims`. -/
structure Ledger where
  credits : List (String × Nat)
  debits : List (String × Nat)
  claims : List (String × Claim)

/-- The `NetworkState` of `src/state/src/state.rs`, restricted to the
ledger contents its pure getters read. -/
structure NetworkState where
  ledger : Ledger

/-- `NetworkState::get_credits`. -/
def get_credits (s : NetworkState) : List (String × Nat) :=
  s.ledger.credits

/-- `NetworkState::get_debits`. -/
def get_debits (s : NetworkState) : List (String × Nat) :=
  s.ledger.debits

/-- `NetworkState::get_claims`. -/
def get_claims (s : NetworkState) : List (String × Claim) :=
  s.ledger.claims

/-- `NetworkState::get_account_credits`: the stored credit amount, `0`
when the address is absent. -/
def get_account_credits (s : NetworkState) (address : String) : Nat :=
  match lookupKey (get_credits s) address with
  | some amount => amount
  | none => 0

/-- `NetworkState::get_account_debits`. -/
def get_account_debits (s : NetworkState) (address : String) : Nat :=
  match lookupKey (get_debits s) address with
  | some amount => amount
  | none => 0

/-- `u128::checked_sub`: `None` exactly when the subtraction would
underflow. -/
def checked_sub (a b : Nat) : Option Nat :=
  if b ≤ a then some (a - b) else none

/-- `NetworkState::get_balance` (`state.rs:110`): credits minus debits via
`checked_sub`, defaulting to `0` on underflow. -/
def get_balance (s : NetworkState) (address : String) : Nat :=
  let credits := get_account_credits s address
  let debits := get_account_debits s address
  match checked_sub credits debits with
  | some balance => balance
  | none => 0

/-! ### Miner election (`get_lowest_pointer`, `state.rs:356`) -/

/-- The first `map` of `get_lowest_pointer`: every claim of the claim map,
in map iteration order, paired as `(claim.hash, claim.get_pointer(seed))`. -/
def claim_pointers (s : NetworkState) (block_seed : Nat) : List (String × Option Nat) :=
  (get_claims s).map (fun kv => (kv.2.hash, kv.2.pointer block_seed))

/-- The `retain`/unwrap steps of `get_lowest_pointer`: entries with a
`None` pointer are dropped, the rest are unwrapped (the `getD 0` default
is never taken: every retained value is a `some`). -/
def base_pointers (s : NetworkState) (block_seed : Nat) : List (String × Nat) :=
  ((claim_pointers s block_seed).filter (fun p => !p.2.isNone)).map
    (fun p => (p.1, p.2.getD 0))

/-- The fold underlying `Iterator::min_by_key(|(_, v)| v)`: the running
minimum is replaced only by a strictly smaller key, so the first of
equally-minimal elements survives. -/
def minByKeyFold (x : String × Nat) (xs : List (String × Nat)) : String × Nat :=
  xs.foldl (fun acc p => if p.2 < acc.2 then p else acc) x

/-- `Iterator::min_by_key` on `(hash, pointer)` pairs keyed by the pointer
value: `None` on an empty iterator, otherwise the first minimal element. -/
def min_by_key : List (String × Nat) → Option (String × Nat)
  | [] => none
  | x :: xs => some (minByKeyFold x xs)

/-- `NetworkState::get_lowest_pointer` (`state.rs:356`): take the minimum
of the base pointers by value, retain the entries achieving it, and return
the first (`base_pointers[0]`, total here via `head?` because the minimum
is a member). -/
def get_lowest_pointer (s : NetworkState) (block_seed : Nat) : Option (String × Nat) :=
  let basePointers := base_pointers s block_seed
  match min_by_key basePointers with
  | some m => (basePointers.filter (fun p => p.2 == m.2)).head?
  | none => none

/-! ## Account-update consolidation
(`src/crates/node/src/runtime/state_module.rs`) -/

/-- Wrap bound of the Rust `u128`. -/
def u128Limit : Nat := 2 ^ 128

/-- Rust release-mode `u128` addition: wraps on overflow. -/
def u128_add (a b : Nat) : Nat := (a + b) % u128Limit

/-- Follows the spec's words only (for comparison with the code):
"`credits := sum(existing, incoming)` (saturating add)", i.e. `u128`
`saturating_add`, capping at `u128::MAX`. -/
def spec_saturating_u128_add (a b : Nat) : Nat :=
  min (a + b) (u128Limit - 1)

/-- Modelled from the spec: `AccountDigests` of `vrrb_core::account` (not
under `src/`), the "`digests` bag recording the hashes of all transactions
that touched it, classified as sent/received/staked" (§3); `extend_all`
merges "by extending the sent/received/staked subsets" (§4.2). -/
structure AccountDigests where
  sent : List String
  recv : List String
  stake : List String
  deriving DecidableEq

/-- `AccountDigests::extend_all`, per §4.2 of the spec. -/
def AccountDigests.extend_all (a b : AccountDigests) : AccountDigests :=
  { sent := a.sent ++ b.sent
    recv := a.recv ++ b.recv
    stake := a.stake ++ b.stake }

/-- The `UpdateArgs` of `vrrb_core::account` (not under `src/`); its field
types are fixed by the `From<StateUpdate>` conversion in
`state_module.rs:95` (`nonce: item.nonce : Option<u128>`,
`credits`/`debits`: `Option<u128>`, `storage`/`code`:
`Option<Option<String>>`, `digests : Option<AccountDigests>`). -/
structure UpdateArgs where
  address : String
  nonce : Option Nat
  credits : Option Nat
  debits : Option Nat
  storage : Option (Option String)
  code : Option (Option String)
  digests : Option AccountDigests
  deriving DecidableEq

/-- Rust `Ord::max` on `Option<u128>`: `None` is below every `Some`. -/
def option_max (a b : Option Nat) : Option Nat :=
  match a, b with
  | none, b => b
  | some x, none => some x
  | some x, some y => some (max x y)

/-- The `and_modify` closure of `consolidate_update_args`
(`state_module.rs:505`): merge an incoming `UpdateArgs` into the existing
one for the same address.  Note the `Some(a), Some(b) => Some(a + b)` arms
use plain (wrapping) addition, and that `storage`/`code` are overwritten
unconditionally (source TODO: "use the most recent value"). -/
def consolidate_merge (existing update : UpdateArgs) : UpdateArgs :=
  { address := existing.address
    nonce := option_max existing.nonce update.nonce
    credits :=
      match existing.credits, update.credits with
      | some a, some b => some (u128_add a b)
      | a, none => a
      | _, b => b
    debits :=
      match existing.debits, update.debits with
      | some a, some b => some (u128_add a b)
      | a, none => a
      | _, b => b
    storage := update.storage
    code := update.code
    digests :=
      match update.digests, existing.digests with
      | some d, some ed => some (ed.extend_all d)
      | _, _ => existing.digests }

/-- `consolidate_update_args` (`state_module.rs:505`): fold every update
into a map keyed by address, merging on collision via `entry().and_modify`
and inserting fresh addresses via `or_insert`.  (The Rust input is a
`HashSet` iterated in an unspecified order; the input here is the list of
updates in the order the fold consumes them.) -/
def consolidate_update_args (updates : List UpdateArgs) : List (String × UpdateArgs) :=
  updates.foldl
    (fun m update => upsertWith m update.address (fun e => consolidate_merge e update) update)
    []

/-! ## Block data model

The `block` crate is not under `src/`; the shapes below are modelled from
the spec (§3) restricted to the fields that `dag.rs` reads. -/

abbrev NodeId := String
abbrev Signat := Nat

/-- Modelled from the spec: a block header; its contents (round, epoch,
seed, …) are never inspected by the DAG operations, which move it around
wholesale, so it is kept abstract. -/
structure BlockHeader where
  raw : Nat
  deriving DecidableEq

/-- Modelled from the spec (§3): a `Certificate` carries an ordered set of
`(node-id, partial-signature)` pairs, a `root_hash`, and the certified
`block_hash` (the optional `inauguration` is never read by the modelled
operations and is omitted). -/
structure Certificate where
  signatures : List (NodeId × Signat)
  root_hash : String
  block_hash : String
  deriving DecidableEq

/-- Modelled from the spec (§3): a genesis block, restricted to the fields
`append_genesis` reads. -/
structure GenesisBlock where
  hash : String
  header : BlockHeader
  certificate : Option Certificate
  deriving DecidableEq

/-- Modelled from the spec (§3): a proposal block, restricted to the
fields `append_proposal` reads (`ref_block` is the referenced prior
confirmed hash). -/
structure ProposalBlock where
  hash : String
  ref_block : String
  header : BlockHeader
  deriving DecidableEq

/-- Modelled from the spec (§3): a convergence block; `ref_hashes` backs
`get_ref_hashes()`, `certificate` is the optional certificate checked by
`check_valid_convergence`. -/
structure ConvergenceBlock where
  hash : String
  header : BlockHeader
  ref_hashes : List String
  certificate : Option Certificate
  deriving DecidableEq

/-- The `Block` tagged union (Genesis / Proposal / Convergence). -/
inductive Block where
  | genesis (block : GenesisBlock)
  | proposal (block : ProposalBlock)
  | convergence (block : ConvergenceBlock)
  deriving DecidableEq

/-- The vertex label of `Vertex<Block, String>`: the block's own hash
(used as the DAG key by `From<Block> for Vertex`). -/
def Block.blockHash : Block → String
  | .genesis b => b.hash
  | .proposal b => b.hash
  | .convergence b => b.hash

/-! ## The DAG store (`bulldag`, an external dependency)

Modelled from the spec (§9): "Represent vertices by content-hash keys and
store edges as (parent-hash → child-hash) in an adjacency map". -/

/-- The graph behind `Arc<RwLock<BullDag<Block, String>>>`: vertices keyed
by block hash, plus the parent→child edge list. -/
structure BullDag where
  vertices : List (String × Block)
  edges : List (String × String)
  deriving DecidableEq

/-- `BullDag::get_vertex`. -/
def BullDag.getVertex (g : BullDag) (k : String) : Option Block :=
  lookupKey g.vertices k

/-- `BullDag::add_vertex`: store the block under its hash (insert or
replace). -/
def BullDag.addVertex (g : BullDag) (b : Block) : BullDag :=
  { g with vertices := upsertWith g.vertices b.blockHash (fun _ => b) b }

/-- `BullDag::add_edge((source, target))`: ensure both endpoints are
present and record the parent→child edge. -/
def BullDag.addEdge (g : BullDag) (source target : Block) : BullDag :=
  let g := (g.addVertex source).addVertex target
  { g with edges := g.edges ++ [(source.blockHash, target.blockHash)] }

/-! ## Signer engine (external `signer` crate)

Only `sig_engine.quorum_members().get_harvester_threshold()` is consulted
by the functions under verification. -/

/-- Modelled from the spec: the quorum membership data held by the signer
engine, reduced to the harvester threshold it reports. -/
structure QuorumMembers where
  harvester_threshold : Nat
  deriving DecidableEq

/-- `QuorumMembers::get_harvester_threshold`. -/
def QuorumMembers.get_harvester_threshold (q : QuorumMembers) : Nat :=
  q.harvester_threshold

/-- Modelled from the spec: the `SignerEngine` capability, reduced to the
quorum membership it exposes (its `sign`/`verify` surface is never invoked
by the modelled DAG functions). -/
structure SignerEngine where
  members : QuorumMembers
  deriving DecidableEq

/-- `SignerEngine::quorum_members`. -/
def SignerEngine.quorum_members (e : SignerEngine) : QuorumMembers :=
  e.members

/-! ## DAG module (`src/crates/node/src/state_manager/dag.rs`) -/

/-- `GraphError` of the `bulldag` crate, restricted to the variants
`dag.rs` produces. -/
inductive GraphError where
  | nonExistentSource
  | nonExistentReference
  | other (msg : String)
  deriving DecidableEq

/-- `NodeError` of the node crate, restricted to the `Other` variant used
by the modelled functions. -/
inductive NodeError where
  | other (msg : String)
  deriving DecidableEq

/-- The `DagModule` state (`dag.rs:50`).  The unused fields
(`quorum_members`, `_harvester_quorum_threshold`, `_pending_certificates`,
`claim`) are not read or written by any operation a claim is about and are
omitted. -/
structure DagModule where
  dag : BullDag
  lastConfirmedBlockHeader : Option BlockHeader
  lastConfirmedBlock : Option Block
  pendingConvergenceBlocks : List (String × ConvergenceBlock)
  certSignatures : List (String × Finset (NodeId × Signat))
  deriving DecidableEq

/-- `check_valid_convergence` (`dag.rs:326`): a convergence block is valid
exactly when it carries a certificate; the certificate-verification call
is commented out in the source. -/
def check_valid_convergence (block : ConvergenceBlock) : Bool :=
  block.certificate.isSome

/-- `get_reference_block` (`dag.rs:253`). -/
def get_reference_block (st : DagModule) (target : String) : Except GraphError Block :=
  match st.dag.getVertex target with
  | some vtx => .ok vtx
  | none => .error .nonExistentReference

/-- `get_convergence_reference_blocks` (`dag.rs:239`): the referenced
blocks that are actually present, unresolvable references filtered out. -/
def get_convergence_reference_blocks (st : DagModule) (convergence : ConvergenceBlock) :
    List Block :=
  convergence.ref_hashes.filterMap (fun target => (get_reference_block st target).toOption)

/-- `append_genesis` (`dag.rs:155`): the certificate check is commented
out in the source; the genesis vertex is written and `last_confirmed`
advanced unconditionally, and the only `Err` of the source (a poisoned
write lock) cannot occur sequentially. -/
def append_genesis (st : DagModule) (genesis : GenesisBlock) :
    DagModule × Except GraphError Unit :=
  let block := Block.genesis genesis
  let st := { st with dag := st.dag.addVertex block }
  ({ st with
      lastConfirmedBlockHeader := some genesis.header
      lastConfirmedBlock := some block },
    .ok ())

/-- `append_convergence` (`dag.rs:199`): when the block is valid (carries
a certificate) add an edge from every resolvable referenced proposal,
advance `last_confirmed`, then remove the block from the pending buffer —
erroring, after those writes, when it was not buffered; when invalid,
buffer it (`entry().or_insert`). -/
def append_convergence (st : DagModule) (convergence : ConvergenceBlock) :
    DagModule × Except GraphError (Option ConvergenceBlock) :=
  if check_valid_convergence convergence then
    let refBlocks := get_convergence_reference_blocks st convergence
    let block := Block.convergence convergence
    let st1 :=
      { st with
        dag := refBlocks.foldl (fun g refBlock => g.addEdge refBlock block) st.dag
        lastConfirmedBlockHeader := some convergence.header
        lastConfirmedBlock := some block }
    if containsKey st1.pendingConvergenceBlocks convergence.hash then
      ({ st1 with
          pendingConvergenceBlocks :=
            eraseKey st1.pendingConvergenceBlocks convergence.hash },
        .ok (some convergence))
    else
      (st1, .error (.other "unable to find pending convergence block"))
  else
    ({ st with
        pendingConvergenceBlocks :=
          upsertWith st.pendingConvergenceBlocks convergence.hash id convergence },
      .ok none)

/-- `check_certificate_threshold_reached` (`dag.rs:363`): error when no
partial-signature set exists for the hash or when the set is below the
harvester threshold; otherwise return the set for certificate formation. -/
def check_certificate_threshold_reached (st : DagModule) (block_hash : String)
    (sig_engine : SignerEngine) : Except NodeError (Finset (NodeId × Signat)) :=
  match lookupKey st.certSignatures block_hash with
  | none => .error (.other ("No partial signatures found for block " ++ block_hash))
  | some set =>
      if set.card < sig_engine.quorum_members.get_harvester_threshold then
        .error (.other "threshold not reached")
      else
        .ok set

/-- `add_signer_to_block` (`dag.rs:339`): insert the `(node_id, sig)` pair
into the per-hash accumulator (a `HashSet`), then run the threshold
check. -/
def add_signer_to_block (st : DagModule) (block_hash : String) (sig : Signat)
    (node_id : NodeId) (sig_engine : SignerEngine) :
    DagModule × Except NodeError (Finset (NodeId × Signat)) :=
  let st :=
    { st with
      certSignatures :=
        upsertWith st.certSignatures block_hash
          (fun set => insert (node_id, sig) set) {(node_id, sig)} }
  (st, check_certificate_threshold_reached st block_hash sig_engine)

/-- The per-hash accumulated signature set (empty when no accumulator
exists yet); the view the claims about accumulation quantify over. -/
def accumulated_sigs (st : DagModule) (block_hash : String) : Finset (NodeId × Signat) :=
  (lookupKey st.certSignatures block_hash).getD ∅

/-- A sequence of `add_signer_to_block` insertions
`(block_hash, node_id, sig)`, applied left to right, keeping the state. -/
def apply_insertions (sig_engine : SignerEngine) (st : DagModule)
    (l : List (String × NodeId × Signat)) : DagModule :=
  l.foldl (fun s e => (add_signer_to_block s e.1 e.2.2 e.2.1 sig_engine).1) st

/-! ## DKG engine (`src/crates/consensus/dkg_engine/src/types/mod.rs`)

The hbbft cryptographic types (`Part`, `Ack`, keys, `SyncKeyGen`,
`OsRng`) are external and never inspected by `clear_dkg_state`; they are
kept abstract. -/

abbrev DkgNodeID := Nat
abbrev DkgSenderID := Nat
abbrev Part := Nat
abbrev Ack := Nat
abbrev HbbftPublicKey := Nat
abbrev PublicKeySet := Nat
abbrev SecretKey := Nat
abbrev SecretKeyShare := Nat
abbrev SyncKeyGen := Nat
abbrev OsRng := Unit

/-- Node kinds (`primitives::NodeType`; the module file is not under
`src/`), per the spec's configuration surface (§9). -/
inductive NodeType where
  | bootstrap
  | validator
  | miner
  | full
  deriving DecidableEq

/-- Modelled from the spec: `ThresholdConfig` (its source file is not
under `src/`); per the doc-comment in `types/mod.rs` it holds the number
of participating nodes and the threshold. -/
structure ThresholdConfig where
  upper_bound : Nat
  threshold : Nat
  deriving DecidableEq

/-- `DkgState` (`types/mod.rs:69`): part store, ack store, peer public
keys, and the emerging keyset material. -/
structure DkgState where
  part_message_store : List (DkgNodeID × Part)
  ack_message_store : List ((DkgNodeID × DkgSenderID) × Ack)
  peer_public_keys : List (DkgNodeID × HbbftPublicKey)
  public_key_set : Option PublicKeySet
  secret_key_share : Option SecretKeyShare
  sync_key_gen : Option SyncKeyGen
  random_number_gen : Option OsRng
  deriving DecidableEq

/-- `DkgEngine` (`types/mod.rs:31`). -/
structure DkgEngine where
  node_idx : Nat
  node_type : NodeType
  threshold_config : ThresholdConfig
  secret_key : SecretKey
  dkg_state : DkgState
  harvester_public_key : Option HbbftPublicKey
  deriving DecidableEq

/-- `DkgEngine::clear_dkg_state` (`types/mod.rs:166`): clear the part,
ack and peer stores and drop the derived keyset material; nothing else is
touched. -/
def clear_dkg_state (e : DkgEngine) : DkgEngine :=
  { e with
    dkg_state :=
      { part_message_store := []
        ack_message_store := []
        sync_key_gen := none
        random_number_gen := none
        public_key_set := none
        peer_public_keys := []
        secret_key_share := none } }

/-! ## Concrete instances used by the closed theorems below -/

/-- An empty DAG module state. -/
def emptyDag : DagModule :=
  { dag := ⟨[], []⟩
    lastConfirmedBlockHeader := none
    lastConfirmedBlock := none
    pendingConvergenceBlocks := []
    certSignatures := [] }

def c1_certificate : Certificate :=
  { signatures := [], root_hash := "", block_hash := "conv1" }

def c1_block : ConvergenceBlock :=
  { hash := "conv1", header := ⟨1⟩, ref_hashes := [], certificate := some c1_certificate }

def c1_state : DagModule :=
  { emptyDag with pendingConvergenceBlocks := [("conv1", c1_block)] }

def c1_engine : SignerEngine := ⟨⟨1⟩⟩

def c1w_block : ConvergenceBlock :=
  { hash := "conv2", header := ⟨2⟩, ref_hashes := [], certificate := none }

def c3_existing : UpdateArgs :=
  { address := "addr1", nonce := some 0, credits := some (u128Limit - 1), debits := none
    storage := none, code := none, digests := none }

def c3_incoming : UpdateArgs :=
  { address := "addr1", nonce := some 5, credits := some 1, debits := none
    storage := none, code := none, digests := none }

def c3w_existing : UpdateArgs :=
  { address := "addr2", nonce := some 1, credits := some 2, debits := some 3
    storage := none, code := none, digests := none }

def c3w_incoming : UpdateArgs :=
  { address := "addr2", nonce := some 5, credits := some 7, debits := some 9
    storage := none, code := none, digests := none }

def c4_set : Finset (NodeId × Signat) := {("n1", 1)}

def c4_state : DagModule := { emptyDag with certSignatures := [("blk", c4_set)] }

def c4_engine : SignerEngine := ⟨⟨2⟩⟩

def c5_engine : SignerEngine := ⟨⟨3⟩⟩

def c5_l : List (String × NodeId × Signat) := [("b1", ("n1", 1)), ("b1", ("n2", 2))]

def c5_l2 : List (String × NodeId × Signat) := [("b1", ("n2", 2)), ("b1", ("n1", 1))]

def c6_g1 : GenesisBlock := { hash := "gen1", header := ⟨1⟩, certificate := none }

def c6_g2 : GenesisBlock := { hash := "gen2", header := ⟨2⟩, certificate := none }

def c7_claim_b : Claim := { hash := "b", eligible := false, pointer := fun _ => some 1 }

def c7_claim_a : Claim := { hash := "a", eligible := true, pointer := fun _ => some 1 }

def c7_state : NetworkState :=
  ⟨{ credits := [], debits := [], claims := [("pkB", c7_claim_b), ("pkA", c7_claim_a)] }⟩

def c9_proposal : ProposalBlock := { hash := "prop1", ref_block := "gen1", header := ⟨1⟩ }

def c9_block : ConvergenceBlock :=
  { hash := "conv9", header := ⟨3⟩, ref_hashes := ["prop1"]
    certificate := some { signatures := [("n1", 1)], root_hash := "", block_hash := "conv9" } }

def c9_state : DagModule :=
  { emptyDag with dag := ⟨[("prop1", Block.proposal c9_proposal)], []⟩ }

def c10_claim : Claim := { hash := "c", eligible := true, pointer := fun seed => some (seed + 2) }

def c10_state : NetworkState :=
  ⟨{ credits := [], debits := [], claims := [("pkC", c10_claim)] }⟩

/-! ## Helper lemmas about the map model -/

theorem lookupKey_append {β : Type _} (m m' : List (String × β)) (k : String) :
    lookupKey (m ++ m') k =
      match lookupKey m k with
      | some v => some v
      | none => lookupKey m' k := by
  induction m with
  | nil => rfl
  | cons e rest ih =>
    by_cases h : e.1 = k <;> simp [lookupKey, h, ih]

theorem lookupKey_eq_none_iff {β : Type _} (m : List (String × β)) (k : String) :
    lookupKey m k = none ↔ ∀ e ∈ m, e.1 ≠ k := by
  induction m with
  | nil => simp [lookupKey]
  | cons e rest ih =>
    by_cases h : e.1 = k <;> simp [lookupKey, h, ih]

theorem lookupKey_map_upsert {β : Type _} (m : List (String × β)) (k : String) (f : β → β) :
    lookupKey (m.map (fun e => if e.1 = k then (e.1, f e.2) else e)) k =
      (lookupKey m k).map f := by
  induction m with
  | nil => rfl
  | cons e rest ih =>
    by_cases h : e.1 = k
    · simp [lookupKey, h]
    · simp only [lookupKey, List.map_cons] at ih ⊢
      simp [h, ih]

theorem lookupKey_map_upsert_ne {β : Type _} (m : List (String × β)) (k k' : String)
    (f : β → β) (hne : k' ≠ k) :
    lookupKey (m.map (fun e => if e.1 = k then (e.1, f e.2) else e)) k' =
      lookupKey m k' := by
  induction m with
  | nil => rfl
  | cons e rest ih =>
    have hkk : ¬(k = k') := fun hk => hne hk.symm
    by_cases h : e.1 = k
    · simp [lookupKey, h, hkk, ih]
    · simp [lookupKey, h, ih]

theorem lookupKey_upsertWith_self {β : Type _} (m : List (String × β)) (k : String)
    (f : β → β) (d : β) :
    lookupKey (upsertWith m k f d) k =
      some (match lookupKey m k with | some v => f v | none => d) := by
  unfold upsertWith containsKey
  cases h : lookupKey m k with
  | none =>
    simp only [h, Option.isSome_none, Bool.false_eq_true, if_false]
    rw [lookupKey_append, h]
    simp [lookupKey]
  | some v =>
    simp only [h, Option.isSome_some, if_true]
    rw [lookupKey_map_upsert, h]
    rfl

theorem lookupKey_upsertWith_ne {β : Type _} (m : List (String × β)) (k k' : String)
    (f : β → β) (d : β) (hne : k' ≠ k) :
    lookupKey (upsertWith m k f d) k' = lookupKey m k' := by
  unfold upsertWith containsKey
  cases h : lookupKey m k with
  | none =>
    simp only [h, Option.isSome_none, Bool.false_eq_true, if_false]
    rw [lookupKey_append]
    have hkk : k ≠ k' := fun hk => hne hk.symm
    cases hm : lookupKey m k' <;> simp [lookupKey, hkk]
  | some v =>
    simp only [h, Option.isSome_some, if_true]
    exact lookupKey_map_upsert_ne m k k' f hne

theorem map_upsert_eq_self {β : Type _} (m : List (String × β)) (k : String) (f : β → β)
    (hall : ∀ e ∈ m, e.1 ≠ k) :
    m.map (fun e => if e.1 = k then (e.1, f e.2) else e) = m := by
  induction m with
  | nil => rfl
  | cons e rest ih =>
    have h1 := hall e (by simp)
    simp only [List.map_cons, List.cons.injEq]
    constructor
    · simp [h1]
    · exact ih (fun e' he' => hall e' (by simp [he']))

theorem upsertWith_idem {β : Type _} (m : List (String × β)) (k : String) (f : β → β)
    (d : β) (hf : ∀ v, f (f v) = f v) (hd : f d = d) :
    upsertWith (upsertWith m k f d) k f d = upsertWith m k f d := by
  have hcontains : containsKey (upsertWith m k f d) k = true := by
    unfold containsKey
    rw [lookupKey_upsertWith_self]
    rfl
  unfold upsertWith at hcontains ⊢
  cases h : containsKey m k with
  | false =>
    simp only [h, Bool.false_eq_true, if_false] at hcontains ⊢
    rw [if_pos hcontains]
    rw [List.map_append]
    have hnone : lookupKey m k = none := by
      unfold containsKey at h
      cases hm : lookupKey m k
      · rfl
      · rw [hm] at h; simp at h
    rw [map_upsert_eq_self m k f ((lookupKey_eq_none_iff m k).mp hnone)]
    simp [hd]
  | true =>
    simp only [h, if_true] at hcontains ⊢
    rw [if_pos hcontains]
    rw [List.map_map]
    apply List.map_congr_left
    intro e _
    by_cases he : e.1 = k <;> simp [Function.comp, he, hf]

/-! ## Lemmas about signature accumulation -/

theorem accumulated_sigs_add_signer (st : DagModule) (bh : String) (n : NodeId)
    (sg : Signat) (engine : SignerEngine) (h : String) :
    accumulated_sigs (add_signer_to_block st bh sg n engine).1 h =
      if h = bh then insert (n, sg) (accumulated_sigs st h)
      else accumulated_sigs st h := by
  unfold add_signer_to_block accumulated_sigs
  by_cases hh : h = bh
  · subst hh
    simp only [if_pos rfl]
    rw [lookupKey_upsertWith_self]
    cases hm : lookupKey st.certSignatures h <;> simp
  · simp only [if_neg hh]
    rw [lookupKey_upsertWith_ne _ _ _ _ _ hh]

theorem add_signer_to_block_state_idem (st : DagModule) (bh : String) (n : NodeId)
    (sg : Signat) (engine : SignerEngine) :
    (add_signer_to_block (add_signer_to_block st bh sg n engine).1 bh sg n engine).1 =
      (add_signer_to_block st bh sg n engine).1 := by
  simp only [add_signer_to_block]
  congr 1
  exact upsertWith_idem _ _ _ _ (fun v => Finset.insert_idem _ _) (by simp)

theorem accumulated_sigs_apply_insertions (engine : SignerEngine)
    (l : List (String × NodeId × Signat)) (st : DagModule) (h : String) :
    accumulated_sigs (apply_insertions engine st l) h =
      accumulated_sigs st h ∪
        ((l.filter (fun e => decide (e.1 = h))).map (fun e => e.2)).toFinset := by
  induction l generalizing st with
  | nil => simp [apply_insertions]
  | cons e rest ih =>
    simp only [apply_insertions, List.foldl_cons] at ih ⊢
    rw [ih]
    rw [accumulated_sigs_add_signer]
    by_cases he : e.1 = h
    · have : h = e.1 := he.symm
      simp [this, List.filter_cons, Finset.union_insert, Finset.insert_union]
    · have : ¬(h = e.1) := fun hk => he hk.symm
      simp [this, he, List.filter_cons]

/-! ## Lemmas about the DAG fold -/

theorem addEdge_edges (g : BullDag) (source target : Block) :
    (g.addEdge source target).edges =
      g.edges ++ [(source.blockHash, target.blockHash)] := rfl

theorem foldl_addEdge_edges (refs : List Block) (g : BullDag) (b : Block) :
    (refs.foldl (fun acc rb => acc.addEdge rb b) g).edges =
      g.edges ++ refs.map (fun rb => (rb.blockHash, b.blockHash)) := by
  induction refs generalizing g with
  | nil => simp
  | cons r rs ih =>
    simp only [List.foldl_cons, List.map_cons]
    rw [ih, addEdge_edges, List.append_assoc]
    rfl

/-! ## Lemmas about the minimum fold of `get_lowest_pointer` -/

theorem minByKeyFold_mem (x : String × Nat) (xs : List (String × Nat)) :
    minByKeyFold x xs ∈ x :: xs := by
  induction xs generalizing x with
  | nil => simp [minByKeyFold]
  | cons y ys ih =>
    unfold minByKeyFold at ih ⊢
    simp only [List.foldl_cons]
    have H := ih (if y.2 < x.2 then y else x)
    rcases List.mem_cons.mp H with h1 | h1
    · rw [h1]
      by_cases h : y.2 < x.2 <;> simp [h]
    · simp only [List.mem_cons] at h1 ⊢
      tauto

theorem minByKeyFold_le (x : String × Nat) (xs : List (String × Nat)) :
    ∀ y ∈ x :: xs, (minByKeyFold x xs).2 ≤ y.2 := by
  induction xs generalizing x with
  | nil =>
    intro y hy
    simp only [List.mem_cons, List.not_mem_nil, or_false] at hy
    subst hy
    simp [minByKeyFold]
  | cons z zs ih =>
    intro y hy
    unfold minByKeyFold
    simp only [List.foldl_cons]
    have hstart_x : (if z.2 < x.2 then z else x).2 ≤ x.2 := by
      by_cases h : z.2 < x.2 <;> simp [h]
      omega
    have hstart_z : (if z.2 < x.2 then z else x).2 ≤ z.2 := by
      by_cases h : z.2 < x.2 <;> simp [h]
      omega
    have hfold : (minByKeyFold (if z.2 < x.2 then z else x) zs).2 ≤
        (if z.2 < x.2 then z else x).2 :=
      ih (if z.2 < x.2 then z else x) _ (by simp)
    rcases List.mem_cons.mp hy with h1 | h1
    · subst h1
      unfold minByKeyFold at hfold
      omega
    rcases List.mem_cons.mp h1 with h2 | h2
    · subst h2
      unfold minByKeyFold at hfold
      omega
    · exact ih (if z.2 < x.2 then z else x) y (by simp [h2])

theorem head_filter_eq_find {α : Type _} (p : α → Bool) (l : List α) :
    (l.filter p).head? = l.find? p := by
  induction l with
  | nil => rfl
  | cons a t ih =>
    cases h : p a <;> simp [List.filter_cons, List.find?_cons, h, ih]

theorem find_eq_some_decomp {α : Type _} (p : α → Bool) (l : List α) (e : α)
    (hfind : l.find? p = some e) :
    p e = true ∧ ∃ l1 l2, l = l1 ++ e :: l2 ∧ ∀ y ∈ l1, p y = false := by
  induction l with
  | nil => simp [List.find?] at hfind
  | cons a t ih =>
    rw [List.find?_cons] at hfind
    cases h : p a
    · rw [h] at hfind
      obtain ⟨hp, l1, l2, heq, hall⟩ := ih hfind
      refine ⟨hp, a :: l1, l2, by simp [heq], ?_⟩
      intro y hy
      rcases List.mem_cons.mp hy with h1 | h1
      · rw [h1]; exact h
      · exact hall y h1
    · rw [h] at hfind
      simp only [Option.some.injEq] at hfind
      subst hfind
      exact ⟨h, [], t, rfl, by simp⟩

/-! ## Lemmas about `base_pointers` -/

theorem mem_base_pointers_iff (s : NetworkState) (seed : Nat) (h : String) (v : Nat) :
    (h, v) ∈ base_pointers s seed ↔
      ∃ kv ∈ get_claims s, kv.2.hash = h ∧ kv.2.pointer seed = some v := by
  unfold base_pointers claim_pointers
  simp only [List.mem_map, List.mem_filter, Prod.mk.injEq]
  constructor
  · rintro ⟨p, ⟨⟨kv, hkv, hfkv⟩, hsome⟩, hp1, hp2⟩
    refine ⟨kv, hkv, ?_, ?_⟩
    · rw [← hfkv] at hp1; exact hp1
    · rw [← hfkv] at hsome hp2
      simp only at hsome hp2
      cases hptr : kv.2.pointer seed with
      | none => rw [hptr] at hsome; simp at hsome
      | some w =>
        rw [hptr] at hp2
        simp at hp2
        rw [hp2]
  · rintro ⟨kv, hkv, hhash, hptr⟩
    refine ⟨(kv.2.hash, kv.2.pointer seed), ⟨⟨kv, hkv, rfl⟩, ?_⟩, ?_, ?_⟩
    · simp [hptr]
    · exact hhash
    · simp [hptr]

theorem base_pointers_eq_nil_iff (s : NetworkState) (seed : Nat) :
    base_pointers s seed = [] ↔ ∀ kv ∈ get_claims s, kv.2.pointer seed = none := by
  unfold base_pointers claim_pointers
  constructor
  · intro hnil kv hkv
    rw [List.map_eq_nil_iff, List.filter_eq_nil_iff] at hnil
    have hthis := hnil (kv.2.hash, kv.2.pointer seed) (List.mem_map.mpr ⟨kv, hkv, rfl⟩)
    simpa using hthis
  · intro hall
    rw [List.map_eq_nil_iff, List.filter_eq_nil_iff]
    intro p hp
    obtain ⟨kv, hkv, hfkv⟩ := List.mem_map.mp hp
    rw [← hfkv]
    simp [hall kv hkv]

/-- Case analysis of `get_lowest_pointer`: either there are no base
pointers and the result is `none`, or the result is the first minimal base
pointer. -/
theorem get_lowest_pointer_cases (s : NetworkState) (seed : Nat) :
    (base_pointers s seed = [] ∧ get_lowest_pointer s seed = none)
    ∨ ∃ e, get_lowest_pointer s seed = some e
        ∧ e ∈ base_pointers s seed
        ∧ (∀ y ∈ base_pointers s seed, e.2 ≤ y.2)
        ∧ ∃ l1 l2, base_pointers s seed = l1 ++ e :: l2 ∧ ∀ y ∈ l1, e.2 < y.2 := by
  cases hb : base_pointers s seed with
  | nil =>
    left
    refine ⟨rfl, ?_⟩
    unfold get_lowest_pointer
    rw [hb]
    rfl
  | cons x xs =>
    right
    have hminmem : minByKeyFold x xs ∈ x :: xs := minByKeyFold_mem x xs
    have hminle : ∀ y ∈ x :: xs, (minByKeyFold x xs).2 ≤ y.2 := minByKeyFold_le x xs
    cases hf : (x :: xs).find? (fun p => p.2 == (minByKeyFold x xs).2) with
    | none =>
      exfalso
      have := List.find?_eq_none.mp hf _ hminmem
      simp at this
    | some e =>
      have hres : get_lowest_pointer s seed = some e := by
        unfold get_lowest_pointer min_by_key
        rw [hb]
        simp only
        rw [head_filter_eq_find, hf]
      obtain ⟨hpe, l1, l2, hsplit, hallfalse⟩ := find_eq_some_decomp _ _ _ hf
      have he2 : e.2 = (minByKeyFold x xs).2 := by simpa using hpe
      have hemem : e ∈ x :: xs := by rw [hsplit]; simp
      refine ⟨e, hres, hemem, ?_, l1, l2, hsplit, ?_⟩
      · intro y hy
        rw [he2]
        exact hminle y hy
      · intro y hy
        have hy' : y ∈ x :: xs := by rw [hsplit]; simp [hy]
        have hle := hminle y hy'
        have hne : y.2 ≠ (minByKeyFold x xs).2 := by simpa using hallfalse y hy
        rw [he2]
        omega

/-- C10: `get_lowest_pointer` returns `none` exactly when no claim in the
claim map yields a `Some` pointer for the seed; otherwise it returns a
hash/pointer pair attained by some claim whose value is minimal among all
`Some` pointers. -/
theorem claim_C10_get_lowest_pointer (s : NetworkState) (seed : Nat) :
    (get_lowest_pointer s seed = none ↔ ∀ kv ∈ get_claims s, kv.2.pointer seed = none)
    ∧ ∀ h p, get_lowest_pointer s seed = some (h, p) →
        (∃ kv ∈ get_claims s, kv.2.hash = h ∧ kv.2.pointer seed = some p)
        ∧ ∀ kv ∈ get_claims s, ∀ v, kv.2.pointer seed = some v → p ≤ v := by
  rcases get_lowest_pointer_cases s seed with ⟨hnil, hres⟩ | ⟨e, hres, hmem, hmin, _⟩
  · constructor
    · rw [hres]
      simp only [true_iff]
      exact (base_pointers_eq_nil_iff s seed).mp hnil
    · intro h p habs
      rw [hres] at habs
      cases habs
  · constructor
    · rw [hres]
      constructor
      · intro habs; cases habs
      · intro hall
        exfalso
        rw [(base_pointers_eq_nil_iff s seed).mpr hall] at hmem
        simp at hmem
    · intro h p hsome
      rw [hres] at hsome
      have he : e = (h, p) := by
        cases hsome
        rfl
      subst he
      constructor
      · have := (mem_base_pointers_iff s seed h p).mp hmem
        exact this
      · intro kv hkv v hv
        have hmemv : (kv.2.hash, v) ∈ base_pointers s seed :=
          (mem_base_pointers_iff s seed _ v).mpr ⟨kv, hkv, rfl, hv⟩
        exact hmin _ hmemv

/-- C10 witness: on a ledger with a single claim with pointer
`seed + 2`, the election returns that claim's hash and pointer. -/
theorem claim_C10_witness :
    get_lowest_pointer c10_state 0 = some ("c", 2)
    ∧ ((get_lowest_pointer c10_state 0 = none
          ↔ ∀ kv ∈ get_claims c10_state, kv.2.pointer 0 = none)
       ∧ ∀ h p, get_lowest_pointer c10_state 0 = some (h, p) →
           (∃ kv ∈ get_claims c10_state, kv.2.hash = h ∧ kv.2.pointer 0 = some p)
           ∧ ∀ kv ∈ get_claims c10_state, ∀ v, kv.2.pointer 0 = some v → p ≤ v) :=
  ⟨rfl, claim_C10_get_lowest_pointer c10_state 0⟩

/-- C7 counterexample: the claim map holds an ineligible claim with hash
`"b"` and an eligible claim with hash `"a"`, both with pointer value `1`
for seed `0`.  The claim as stated requires the winner to be drawn from
eligible claims only and, on the tie, to be the lexicographically first
hash (`"a"`); the code elects the ineligible `"b"` (first in claim-map
iteration order). -/
theorem claim_C7_counterexample :
    get_claims c7_state = [("pkB", c7_claim_b), ("pkA", c7_claim_a)]
    ∧ c7_claim_b.eligible = false
    ∧ c7_claim_b.hash = "b"
    ∧ c7_claim_a.eligible = true
    ∧ c7_claim_a.hash = "a"
    ∧ c7_claim_a.pointer 0 = some 1
    ∧ c7_claim_b.pointer 0 = some 1
    ∧ "a".data < "b".data
    ∧ get_lowest_pointer c7_state 0 = some ("b", 1) :=
  ⟨rfl, rfl, rfl, rfl, rfl, rfl, rfl, by decide, rfl⟩

/-- C7 amended: `get_lowest_pointer` considers every claim in the claim
map regardless of eligibility; whenever at least one claim has a non-None
pointer it returns a winner whose pointer value is attained and minimal
among all non-None pointers, and on a tie the winner is the earliest
entry in claim-map iteration order (every earlier base pointer is
strictly larger). -/
theorem claim_C7_amended (s : NetworkState) (seed : Nat)
    (hex : ∃ kv ∈ get_claims s, (kv.2.pointer seed).isSome) :
    ∃ m : String × Nat,
      get_lowest_pointer s seed = some m
      ∧ (∃ kv ∈ get_claims s, kv.2.hash = m.1 ∧ kv.2.pointer seed = some m.2)
      ∧ (∀ kv ∈ get_claims s, ∀ v, kv.2.pointer seed = some v → m.2 ≤ v)
      ∧ ∃ l1 l2, base_pointers s seed = l1 ++ m :: l2 ∧ ∀ y ∈ l1, m.2 < y.2 := by
  obtain ⟨kv, hkv, hsome⟩ := hex
  obtain ⟨w, hw⟩ := Option.isSome_iff_exists.mp hsome
  have hmem0 : (kv.2.hash, w) ∈ base_pointers s seed :=
    (mem_base_pointers_iff s seed _ w).mpr ⟨kv, hkv, rfl, hw⟩
  rcases get_lowest_pointer_cases s seed with ⟨hnil, _⟩ | ⟨e, hres, hmem, hmin, hfirst⟩
  · rw [hnil] at hmem0
    simp at hmem0
  · refine ⟨e, hres, ?_, ?_, hfirst⟩
    · have := (mem_base_pointers_iff s seed e.1 e.2).mp (by simpa using hmem)
      exact this
    · intro kv' hkv' v hv
      exact hmin _ ((mem_base_pointers_iff s seed _ v).mpr ⟨kv', hkv', rfl, hv⟩)

/-- C7 witness for the amended claim: at the concrete two-claim ledger the
hypothesis holds and the election returns the first minimal entry. -/
theorem claim_C7_amended_witness :
    (∃ kv ∈ get_claims c7_state, (kv.2.pointer 0).isSome)
    ∧ ∃ m : String × Nat,
        get_lowest_pointer c7_state 0 = some m
        ∧ (∃ kv ∈ get_claims c7_state, kv.2.hash = m.1 ∧ kv.2.pointer 0 = some m.2)
        ∧ (∀ kv ∈ get_claims c7_state, ∀ v, kv.2.pointer 0 = some v → m.2 ≤ v)
        ∧ ∃ l1 l2, base_pointers c7_state 0 = l1 ++ m :: l2 ∧ ∀ y ∈ l1, m.2 < y.2 :=
  ⟨by decide, claim_C7_amended c7_state 0 (by decide)⟩

/-- C2: for every account, `get_balance` returns credits minus debits when
credits are at least debits, and zero otherwise; it saturates at zero and
never underflows (the truncated `Nat` subtraction form is equivalent). -/
theorem claim_C2_get_balance_saturating (s : NetworkState) (address : String) :
    get_balance s address =
      (if get_account_debits s address ≤ get_account_credits s address
       then get_account_credits s address - get_account_debits s address
       else 0)
    ∧ get_balance s address =
        get_account_credits s address - get_account_debits s address := by
  have hb : get_balance s address =
      (if get_account_debits s address ≤ get_account_credits s address
       then get_account_credits s address - get_account_debits s address
       else 0) := by
    unfold get_balance checked_sub
    by_cases h : get_account_debits s address ≤ get_account_credits s address <;> simp [h]
  refine ⟨hb, ?_⟩
  rw [hb]
  split <;> omega

/-- C8: `clear_dkg_state` empties the part, ack and peer stores, resets
the derived keyset material to `None`, and leaves every field outside
`dkg_state` (node index, node type, threshold config, own secret key,
harvester public key) unchanged.  The Rust method holds `&mut self`
exclusively, so the transition is a single atomic step, modelled here as
one pure state transformer. -/
theorem claim_C8_clear_dkg_state (e : DkgEngine) :
    (clear_dkg_state e).dkg_state.part_message_store = []
    ∧ (clear_dkg_state e).dkg_state.ack_message_store = []
    ∧ (clear_dkg_state e).dkg_state.peer_public_keys = []
    ∧ (clear_dkg_state e).dkg_state.public_key_set = none
    ∧ (clear_dkg_state e).dkg_state.secret_key_share = none
    ∧ (clear_dkg_state e).dkg_state.sync_key_gen = none
    ∧ (clear_dkg_state e).dkg_state.random_number_gen = none
    ∧ (clear_dkg_state e).node_idx = e.node_idx
    ∧ (clear_dkg_state e).node_type = e.node_type
    ∧ (clear_dkg_state e).threshold_config = e.threshold_config
    ∧ (clear_dkg_state e).secret_key = e.secret_key
    ∧ (clear_dkg_state e).harvester_public_key = e.harvester_public_key :=
  ⟨rfl, rfl, rfl, rfl, rfl, rfl, rfl, rfl, rfl, rfl, rfl, rfl⟩

/-- C6 counterexample: after a first genesis block is appended (so a
genesis vertex exists in the DAG), `append_genesis` still accepts a second
genesis block — returning `Ok` and advancing `last_confirmed` to it —
instead of rejecting it. -/
theorem claim_C6_counterexample :
    (append_genesis emptyDag c6_g1).1.dag.getVertex "gen1" = some (Block.genesis c6_g1)
    ∧ (append_genesis (append_genesis emptyDag c6_g1).1 c6_g2).2 = .ok ()
    ∧ (append_genesis (append_genesis emptyDag c6_g1).1 c6_g2).1.lastConfirmedBlockHeader
        = some c6_g2.header :=
  ⟨rfl, rfl, rfl⟩

/-- C6 amended: `append_genesis` performs no duplicate-genesis check: for
every state — including states already holding a genesis vertex — it
returns `Ok`, inserts the genesis vertex, and advances `last_confirmed`
to the genesis block's header. -/
theorem claim_C6_amended (st : DagModule) (g : GenesisBlock) :
    (append_genesis st g).2 = .ok ()
    ∧ (append_genesis st g).1.lastConfirmedBlockHeader = some g.header
    ∧ (append_genesis st g).1.lastConfirmedBlock = some (Block.genesis g)
    ∧ (append_genesis st g).1.dag.getVertex g.hash = some (Block.genesis g) := by
  refine ⟨rfl, rfl, rfl, ?_⟩
  show lookupKey (upsertWith st.dag.vertices g.hash
      (fun _ => Block.genesis g) (Block.genesis g)) g.hash = some (Block.genesis g)
  rw [lookupKey_upsertWith_self]
  cases lookupKey st.dag.vertices g.hash <;> rfl

/-- C1 counterexample: a convergence block whose certificate has an empty
signature set (cardinality `0`, below a harvester threshold of `1`) is
admitted by `append_convergence` and set as `last_confirmed`; no
cardinality or signature-verification check is applied. -/
theorem claim_C1_counterexample :
    (append_convergence c1_state c1_block).2 = .ok (some c1_block)
    ∧ (append_convergence c1_state c1_block).1.lastConfirmedBlock
        = some (Block.convergence c1_block)
    ∧ (append_convergence c1_state c1_block).1.lastConfirmedBlockHeader
        = some c1_block.header
    ∧ c1_block.certificate = some c1_certificate
    ∧ c1_certificate.signatures.length
        < c1_engine.quorum_members.get_harvester_threshold :=
  ⟨rfl, rfl, rfl, rfl, by decide⟩

/-- C1 amended: every convergence block admitted into the DAG as
confirmed carries a certificate (`certificate` is `Some`), and nothing
more: `check_valid_convergence` checks only presence.  Equivalently, a
certificate-less block is never admitted — it is buffered with the DAG
and `last_confirmed` untouched. -/
theorem claim_C1_amended (st : DagModule) (c : ConvergenceBlock)
    (hnone : c.certificate = none) :
    (append_convergence st c).2 = .ok none
    ∧ (append_convergence st c).1.dag = st.dag
    ∧ (append_convergence st c).1.lastConfirmedBlockHeader = st.lastConfirmedBlockHeader
    ∧ (append_convergence st c).1.lastConfirmedBlock = st.lastConfirmedBlock := by
  unfold append_convergence check_valid_convergence
  rw [hnone]
  exact ⟨rfl, rfl, rfl, rfl⟩

/-- C1 witness for the amended claim: a concrete certificate-less block is
buffered, not admitted. -/
theorem claim_C1_amended_witness :
    c1w_block.certificate = none
    ∧ ((append_convergence c1_state c1w_block).2 = .ok none
       ∧ (append_convergence c1_state c1w_block).1.dag = c1_state.dag
       ∧ (append_convergence c1_state c1w_block).1.lastConfirmedBlockHeader
           = c1_state.lastConfirmedBlockHeader
       ∧ (append_convergence c1_state c1w_block).1.lastConfirmedBlock
           = c1_state.lastConfirmedBlock) :=
  ⟨rfl, claim_C1_amended c1_state c1w_block rfl⟩

/-- C9: when `append_convergence` receives a certificate-bearing block
whose hash is not in `pending_convergence_blocks`, it returns an error —
but by then the block's edges have been added to the DAG and
`last_confirmed` has been advanced to the block: the error path is not
atomic. -/
theorem claim_C9_error_path_mutates (st : DagModule) (c : ConvergenceBlock)
    (hcert : c.certificate.isSome = true)
    (hpending : lookupKey st.pendingConvergenceBlocks c.hash = none) :
    (append_convergence st c).2
        = .error (.other "unable to find pending convergence block")
    ∧ (append_convergence st c).1.lastConfirmedBlockHeader = some c.header
    ∧ (append_convergence st c).1.lastConfirmedBlock = some (Block.convergence c)
    ∧ (append_convergence st c).1.dag.edges
        = st.dag.edges ++ (get_convergence_reference_blocks st c).map
            (fun rb => (rb.blockHash, c.hash)) := by
  unfold append_convergence check_valid_convergence
  rw [if_pos hcert]
  have hcontains : containsKey st.pendingConvergenceBlocks c.hash = false := by
    unfold containsKey
    rw [hpending]
    rfl
  simp only [hcontains, Bool.false_eq_true, if_false]
  refine ⟨trivial, trivial, trivial, ?_⟩
  exact foldl_addEdge_edges (get_convergence_reference_blocks st c) st.dag
    (Block.convergence c)

/-- C9 witness: a concrete certificate-bearing block referencing a present
proposal but absent from the pending buffer errors while leaving the new
edge and advanced `last_confirmed` behind. -/
theorem claim_C9_witness :
    c9_block.certificate.isSome = true
    ∧ lookupKey c9_state.pendingConvergenceBlocks c9_block.hash = none
    ∧ ((append_convergence c9_state c9_block).2
          = .error (.other "unable to find pending convergence block")
       ∧ (append_convergence c9_state c9_block).1.lastConfirmedBlockHeader
           = some c9_block.header
       ∧ (append_convergence c9_state c9_block).1.lastConfirmedBlock
           = some (Block.convergence c9_block)
       ∧ (append_convergence c9_state c9_block).1.dag.edges
           = c9_state.dag.edges ++ (get_convergence_reference_blocks c9_state c9_block).map
               (fun rb => (rb.blockHash, c9_block.hash))) :=
  ⟨rfl, rfl, claim_C9_error_path_mutates c9_state c9_block rfl rfl⟩

/-- C3 counterexample: consolidating two updates for the same address with
credit values `u128::MAX` and `1` produces a wrapped credit of `0`, not
the saturating sum `u128::MAX` the claim requires. -/
theorem claim_C3_counterexample :
    consolidate_update_args [c3_existing, c3_incoming]
        = [("addr1", consolidate_merge c3_existing c3_incoming)]
    ∧ (consolidate_merge c3_existing c3_incoming).credits = some 0
    ∧ spec_saturating_u128_add (u128Limit - 1) 1 = u128Limit - 1
    ∧ (0 : Nat) ≠ u128Limit - 1 := by
  refine ⟨by decide, by decide, by decide, by decide⟩

/-- C3 amended: consolidating multiple `update_args` for one address
merges pairwise; the consolidated credits (resp. debits) field is the
wrapping (mod `2^128`) sum of existing and incoming — which agrees with
the spec's saturating sum only when the sum does not overflow — and the
consolidated nonce is `max(existing, incoming)`. -/
theorem claim_C3_amended (e i : UpdateArgs) (a b : Nat)
    (haddr : e.address = i.address) :
    consolidate_update_args [e, i] = [(e.address, consolidate_merge e i)]
    ∧ (e.credits = some a → i.credits = some b →
        (consolidate_merge e i).credits = some (u128_add a b)
        ∧ (a + b < u128Limit → u128_add a b = spec_saturating_u128_add a b))
    ∧ (e.debits = some a → i.debits = some b →
        (consolidate_merge e i).debits = some (u128_add a b)
        ∧ (a + b < u128Limit → u128_add a b = spec_saturating_u128_add a b))
    ∧ (consolidate_merge e i).nonce = option_max e.nonce i.nonce := by
  refine ⟨?_, ?_, ?_, rfl⟩
  · unfold consolidate_update_args
    simp only [List.foldl_cons, List.foldl_nil]
    have h1 : upsertWith ([] : List (String × UpdateArgs)) e.address
        (fun x => consolidate_merge x e) e = [(e.address, e)] := rfl
    rw [h1]
    unfold upsertWith containsKey
    rw [← haddr]
    simp [lookupKey]
  · intro h1 h2
    unfold consolidate_merge
    rw [h1, h2]
    refine ⟨rfl, ?_⟩
    intro hlt
    unfold u128_add spec_saturating_u128_add
    rw [Nat.mod_eq_of_lt hlt]
    omega
  · intro h1 h2
    unfold consolidate_merge
    rw [h1, h2]
    refine ⟨rfl, ?_⟩
    intro hlt
    unfold u128_add spec_saturating_u128_add
    rw [Nat.mod_eq_of_lt hlt]
    omega

/-- C3 witness for the amended claim: small concrete updates for one
address consolidate to the wrapped sums and the max nonce. -/
theorem claim_C3_amended_witness :
    c3w_existing.address = c3w_incoming.address
    ∧ c3w_existing.credits = some 2 ∧ c3w_incoming.credits = some 7
    ∧ c3w_existing.debits = some 3 ∧ c3w_incoming.debits = some 9
    ∧ consolidate_update_args [c3w_existing, c3w_incoming]
        = [(c3w_existing.address, consolidate_merge c3w_existing c3w_incoming)]
    ∧ (consolidate_merge c3w_existing c3w_incoming).credits = some (u128_add 2 7)
    ∧ (consolidate_merge c3w_existing c3w_incoming).debits = some (u128_add 3 9)
    ∧ (consolidate_merge c3w_existing c3w_incoming).nonce
        = option_max c3w_existing.nonce c3w_incoming.nonce := by
  have H := claim_C3_amended c3w_existing c3w_incoming 2 7 rfl
  have H2 := claim_C3_amended c3w_existing c3w_incoming 3 9 rfl
  exact ⟨rfl, rfl, rfl, rfl, rfl, H.1, (H.2.1 rfl rfl).1, (H2.2.2.1 rfl rfl).1, H.2.2.2⟩

/-- C4: for a block hash with an accumulated partial-signature set, the
set is returned for certificate formation exactly when its cardinality
reaches the harvester threshold; at exactly `threshold - 1` entries the
check errors and no certificate forms, and accumulating one more (fresh)
entry makes `add_signer_to_block` return the set. -/
theorem claim_C4_certificate_threshold (st : DagModule) (bh : String)
    (sig_engine : SignerEngine) (s : Finset (NodeId × Signat))
    (hlook : lookupKey st.certSignatures bh = some s) :
    (check_certificate_threshold_reached st bh sig_engine = .ok s
      ↔ sig_engine.quorum_members.get_harvester_threshold ≤ s.card)
    ∧ (s.card + 1 = sig_engine.quorum_members.get_harvester_threshold →
        check_certificate_threshold_reached st bh sig_engine
            = .error (.other "threshold not reached")
        ∧ ∀ (n : NodeId) (sg : Signat), (n, sg) ∉ s →
            (add_signer_to_block st bh sg n sig_engine).2
              = .ok (insert (n, sg) s)) := by
  constructor
  · unfold check_certificate_threshold_reached
    simp only [hlook]
    by_cases hlt : s.card < sig_engine.quorum_members.get_harvester_threshold
    · simp only [if_pos hlt]
      constructor
      · intro habs; cases habs
      · intro hle; omega
    · simp only [if_neg hlt]
      constructor
      · intro _; omega
      · intro _; trivial
  · intro hcard
    constructor
    · unfold check_certificate_threshold_reached
      simp only [hlook]
      rw [if_pos (by omega)]
    · intro n sg hnotmem
      have hlook2 : lookupKey
          (upsertWith st.certSignatures bh (fun set => insert (n, sg) set) {(n, sg)}) bh
            = some (insert (n, sg) s) := by
        rw [lookupKey_upsertWith_self, hlook]
      show check_certificate_threshold_reached _ bh sig_engine = _
      unfold check_certificate_threshold_reached
      simp only [hlook2]
      rw [Finset.card_insert_of_not_mem hnotmem]
      rw [if_neg (by omega)]

/-- C4 witness: with harvester threshold `2` and one accumulated
signature, the check errors; adding a second distinct signer returns the
two-element set. -/
theorem claim_C4_witness :
    lookupKey c4_state.certSignatures "blk" = some c4_set
    ∧ c4_set.card + 1 = c4_engine.quorum_members.get_harvester_threshold
    ∧ ((check_certificate_threshold_reached c4_state "blk" c4_engine = .ok c4_set
         ↔ c4_engine.quorum_members.get_harvester_threshold ≤ c4_set.card)
       ∧ (c4_set.card + 1 = c4_engine.quorum_members.get_harvester_threshold →
           check_certificate_threshold_reached c4_state "blk" c4_engine
               = .error (.other "threshold not reached")
           ∧ ∀ (n : NodeId) (sg : Signat), (n, sg) ∉ c4_set →
               (add_signer_to_block c4_state "blk" sg n c4_engine).2
                 = .ok (insert (n, sg) c4_set))) :=
  ⟨rfl, by decide, claim_C4_certificate_threshold c4_state "blk" c4_engine c4_set rfl⟩

/-- C5: accumulating the same partial signature twice for the same
`(block_hash, node_id)` leaves the whole DAG state unchanged
(idempotence), and the accumulated per-hash signature set after any
sequence of insertions depends only of the multiset of insertions, not
their order (commutativity). -/
theorem claim_C5_accumulation_idempotent_commutative (sig_engine : SignerEngine)
    (st : DagModule) (bh : String) (n : NodeId) (sg : Signat)
    (l l2 : List (String × NodeId × Signat)) (hperm : l.Perm l2) :
    (add_signer_to_block (add_signer_to_block st bh sg n sig_engine).1 bh sg n
        sig_engine).1
      = (add_signer_to_block st bh sg n sig_engine).1
    ∧ ∀ h, accumulated_sigs (apply_insertions sig_engine st l) h
        = accumulated_sigs (apply_insertions sig_engine st l2) h := by
  refine ⟨add_signer_to_block_state_idem st bh n sg sig_engine, ?_⟩
  intro h
  rw [accumulated_sigs_apply_insertions, accumulated_sigs_apply_insertions]
  congr 1
  exact List.toFinset_eq_of_perm _ _ (List.Perm.map _ (List.Perm.filter _ hperm))

/-- C5 witness: two insertions for the same block hash in either order
give identical accumulated sets, and re-inserting a signature is a
no-op. -/
theorem claim_C5_witness :
    c5_l.Perm c5_l2
    ∧ ((add_signer_to_block (add_signer_to_block emptyDag "b1" 1 "n1" c5_engine).1
          "b1" 1 "n1" c5_engine).1
        = (add_signer_to_block emptyDag "b1" 1 "n1" c5_engine).1
       ∧ ∀ h, accumulated_sigs (apply_insertions c5_engine emptyDag c5_l) h
           = accumulated_sigs (apply_insertions c5_engine emptyDag c5_l2) h) :=
  ⟨by decide,
    claim_C5_accumulation_idempotent_commutative c5_engine emptyDag "b1" "n1" 1
      c5_l c5_l2 (by decide)⟩

end Vrrb
